import Mathlib

/-!
# Verification of the PromptRAG-PIC retrieval core (`src/vector_store.py`)

A shallow embedding of the `VectorStore` class: its data model (corpus
records, the FAISS flat-L2 index, the newline-delimited metadata file),
`_build_search_text`, `build_index` (full and incremental), `load_index`
and `search` with its fuzzy near-duplicate suppression.

Modelling conventions:
* Embedding vectors are modelled by a single abstract component of type
  `Int`; the embedding model (`SentenceTransformer.encode`) is an
  abstract, possibly failing function `EmbFn := String → Except Unit Int`
  (an `.error` models the provider raising).  The FAISS flat L2 index is
  the list of its vectors in insertion order; squared L2 distance on this
  one-component model is `(q - v) * (q - v)`.
* Python dicts holding records are modelled by the `Item` structure with
  optional fields; `item.get(k, '')` becomes `Option.getD`.
* `difflib.SequenceMatcher(None, a, b).ratio()` is modelled exactly for
  the default configuration, autojunk included: when `len(b) >= 200`,
  elements occurring in more than `len(b) // 100 + 1` positions of `b`
  are purged from the anchor table, matching blocks are the longest
  anchored runs extended over equal characters at both ends, and the
  ratio is the matching-blocks total `2*M/T`, with `ratio() = 1.0` when
  both strings are empty, as in CPython's `_calculate_ratio`.
* Floats appear only in the single comparison `ratio > 0.6`; since the
  correctly-rounded double of `2*M/T` compares to the double literal
  `0.6` exactly as the rationals `2*M/T` and `3/5` do for all string
  lengths below ~10^15, the comparison is modelled by the exact integer
  inequality `3*T < 10*M` (with the `T = 0` case yielding `1.0 > 0.6`,
  i.e. true).
* File-system state (`index_path`, `metadata_path`) is the `FS`
  structure; a metadata file is a list of lines, each blank, corrupt
  (raising in `json.loads`) or a good record; JSON serialisation is
  assumed to round-trip records.
-/

/-- A corpus / metadata record (`item` dict in `vector_store.py`):
all fields are optional, `visual_elements` and `technical` are lists. -/
structure Item where
  subject : Option String := none
  art_style : Option String := none
  visual_elements : Option (List String) := none
  mood : Option String := none
  technical : Option (List String) := none
  raw : Option String := none
deriving Repr, DecidableEq

instance : Inhabited Item := ⟨{}⟩

/-- `item.get('raw', '')` — the exact-match identity key used by the
incremental diff and by the search-time dedup fingerprint. -/
def rawKey (it : Item) : String := it.raw.getD ""

namespace VectorStore

/-- `VectorStore._build_search_text`: append each truthy field in the
fixed source order (a missing key and an empty string/list are both
falsy in Python), fall back to `item.get('raw', '')` when no part was
collected, and join with single spaces. -/
def buildSearchText (item : Item) : String :=
  let parts : List String := []
  let parts := if item.subject.getD "" ≠ "" then parts ++ [item.subject.getD ""] else parts
  let parts := if item.art_style.getD "" ≠ "" then parts ++ [item.art_style.getD ""] else parts
  let parts := if item.visual_elements.getD [] ≠ [] then parts ++ item.visual_elements.getD [] else parts
  let parts := if item.mood.getD "" ≠ "" then parts ++ [item.mood.getD ""] else parts
  let parts := if item.technical.getD [] ≠ [] then parts ++ item.technical.getD [] else parts
  let parts := if parts = [] then [item.raw.getD ""] else parts
  String.intercalate " " parts

end VectorStore

/-- Modelled from the spec (§4.4 step 1) for the refinement claim about
`_build_search_text`: the present fields in the fixed order subject,
art_style, visual_elements joined, mood, technical joined. -/
def presentFields (item : Item) : List String :=
  (if item.subject.getD "" ≠ "" then [item.subject.getD ""] else [])
    ++ (if item.art_style.getD "" ≠ "" then [item.art_style.getD ""] else [])
    ++ item.visual_elements.getD []
    ++ (if item.mood.getD "" ≠ "" then [item.mood.getD ""] else [])
    ++ item.technical.getD []

/-- Modelled from the spec (§4.4 step 1): concatenate the present fields
in fixed order; if all of them are empty or absent, fall back to `raw`. -/
def specSearchText (item : Item) : String :=
  if presentFields item = [] then item.raw.getD ""
  else String.intercalate " " (presentFields item)

/-- Python `str.isspace()` (the character class `str.strip()` removes
with no argument): the Unicode whitespace code points CPython strips —
U+0009..U+000D, U+001C..U+001F, space, U+0085, U+00A0, U+1680,
U+2000..U+200A, U+2028, U+2029, U+202F, U+205F and U+3000. -/
def pyIsSpace (c : Char) : Bool :=
  (0x09 ≤ c.toNat && c.toNat ≤ 0x0d) || (0x1c ≤ c.toNat && c.toNat ≤ 0x20) ||
    c.toNat == 0x85 || c.toNat == 0xa0 || c.toNat == 0x1680 ||
    (0x2000 ≤ c.toNat && c.toNat ≤ 0x200a) || c.toNat == 0x2028 ||
    c.toNat == 0x2029 || c.toNat == 0x202f || c.toNat == 0x205f ||
    c.toNat == 0x3000

/-- Python `str.strip()` on the leading side (Lean's `String.trim` is
not kernel-reducible, so strip is implemented on `List Char`). -/
def dropLeadingWS : List Char → List Char
  | [] => []
  | c :: cs => if pyIsSpace c then dropLeadingWS cs else c :: cs

/-- Python `str.strip()`: drop Unicode whitespace from both ends. -/
def pyStrip (s : String) : String :=
  ⟨(dropLeadingWS ((dropLeadingWS s.data).reverse)).reverse⟩

namespace SeqMatcher

/-- Length of the longest common prefix of two character lists. -/
def commonPrefixLen : List Char → List Char → Nat
  | a :: as, b :: bs => if a = b then commonPrefixLen as bs + 1 else 0
  | _, _ => 0

/-- `difflib`'s autojunk heuristic, with the default `isjunk=None` and
`autojunk=True` of the call in `search`: when the second sequence `b`
has at least 200 elements, an element occurring in `b` more than
`len(b) // 100 + 1` times is "popular" and is purged from the `b2j`
anchor table, so no matching block found by the dynamic programming
pass can be anchored on it.  `b` here is always the whole fingerprint:
`b2j` is built once per `SequenceMatcher`, so recursive windows of
`get_matching_blocks` keep the popularity of the full string. -/
def isPopular (b : List Char) (c : Char) : Bool :=
  decide (200 ≤ b.length) && decide (b.length / 100 + 1 < b.count c)

/-- Length of the anchored matching run from a pair of starts: the
chains of `find_longest_match`'s `j2len` pass extend only while the
characters are equal and the `b` character is still in the anchor
table (not popular). -/
def anchoredRunLen (pop : Char → Bool) : List Char → List Char → Nat
  | a :: as, b :: bs =>
    if a = b ∧ pop b = false then anchoredRunLen pop as bs + 1 else 0
  | _, _ => 0

/-- `difflib.SequenceMatcher.find_longest_match` over a window (here a
pair of slices), with `isjunk=None` so the junk set is empty and the
popularity predicate `pop` fixed from the full second string: the
dynamic-programming pass finds the longest anchored run (among maximal
runs the one starting earliest in `a`, then earliest in `b` — the fold
scans starts in increasing `(i, j)` order and replaces the best only on
a strictly longer run, which realises difflib's update-on-`k > bestsize`
over end positions); the two `while` loops then extend the best block
over equal characters on both ends with no popularity constraint (the
junk-extension loops are no-ops with an empty junk set).  When no run
anchors (`bestsize = 0`), the block starts at `(alo, blo)` = `(0, 0)`
of the window and the forward extension alone can still produce a
non-empty block, exactly as in CPython. -/
def longestMatch (pop : Char → Bool) (a b : List Char) : Nat × Nat × Nat :=
  let base :=
    (List.range a.length).foldl
      (fun best i =>
        (List.range b.length).foldl
          (fun best j =>
            let k := anchoredRunLen pop (a.drop i) (b.drop j)
            if best.2.2 < k then (i, j, k) else best)
          best)
      (0, 0, 0)
  let back := commonPrefixLen ((a.take base.1).reverse) ((b.take base.2.1).reverse)
  let i := base.1 - back
  let j := base.2.1 - back
  let k := base.2.2 + back
  let fwd := commonPrefixLen (a.drop (i + k)) (b.drop (j + k))
  (i, j, k + fwd)

/-- Total size `M` of the matching blocks of
`SequenceMatcher.get_matching_blocks`: recursively take the longest
match and recurse on the parts before and after it, keeping the
popularity predicate of the full second string.  The recursion is
fuelled: every recursive call strictly decreases the length of the
first list (when `k > 0`, `longestMatch` returns `i + k ≤ a.length`
with `k ≥ 1`, so both `a.take i` and `a.drop (i + k)` are strictly
shorter than `a`), hence fuel `a.length + 1` is always enough. -/
def matchedTotal (pop : Char → Bool) : Nat → List Char → List Char → Nat
  | 0, _, _ => 0
  | fuel + 1, a, b =>
    let t := longestMatch pop a b
    if t.2.2 = 0 then 0
    else
      matchedTotal pop fuel (a.take t.1) (b.take t.2.1) + t.2.2 +
        matchedTotal pop fuel (a.drop (t.1 + t.2.2)) (b.drop (t.2.1 + t.2.2))

/-- `M` for two strings, the popularity set taken from the second (the
`b` of `SequenceMatcher(None, a, b)`). -/
def totalMatched (a b : List Char) : Nat :=
  matchedTotal (isPopular b) (a.length + 1) a b

/-- `SequenceMatcher(None, s, t).ratio()` as an exact rational:
`2*M/T` with `T` the combined length, and `1` when both strings are
empty (CPython's `_calculate_ratio`). -/
def ratioQ (s t : String) : ℚ :=
  let T := s.data.length + t.data.length
  if T = 0 then 1 else (2 * totalMatched s.data t.data : ℚ) / (T : ℚ)

/-- The code's test `similarity > 0.6`, as the equivalent exact integer
comparison `3*T < 10*M` (true when `T = 0`, where the ratio is `1.0`). -/
def ratioGtPoint6 (s t : String) : Bool :=
  let T := s.data.length + t.data.length
  if T = 0 then true else decide (3 * T < 10 * totalMatched s.data t.data)

end SeqMatcher

/-- The abstract embedding provider: `encode` on one text, possibly
raising (`EmbeddingFailure`). -/
abbrev EmbFn := String → Except Unit Int

/-- The errors the modelled operations can raise. -/
inductive VSErr where
  /-- `ValueError("索引未加载…")`: `search` before `load_index`/`build_index`. -/
  | notLoaded
  /-- the embedding provider raised. -/
  | embedFail
  /-- `FileNotFoundError` on `load_index`, or `faiss.read_index` on a missing file. -/
  | fileNotFound
  /-- `json.loads` on a malformed metadata line, or `faiss.read_index` on a corrupt file. -/
  | corruptFile
deriving Repr, DecidableEq

/-- The in-memory state of a `VectorStore` instance: `self.index`
(`None` until loaded or built) and `self.metadata`. -/
structure VectorStore where
  index : Option (List Int)
  metadata : List Item
deriving Repr, DecidableEq

/-- Python list indexing `xs[idx]` for `int` indices as used in
`search`: a non-negative index reads from the front, a negative index
wraps from the back (`xs[-1]` is the last element).  FAISS only ever
yields indices `≥ -1`, and the guard in `search` keeps them `< len`,
so the out-of-range default is never reached on real inputs. -/
def pyListGet (xs : List Item) (idx : Int) : Item :=
  if 0 ≤ idx then xs.getD idx.toNat default
  else xs.getD (xs.length - (-idx).toNat) default

/-- The distance FAISS reports for padding slots when `k` exceeds the
number of stored vectors (FLT_MAX in the real library; any fixed value,
the code never inspects it). -/
def faissPadDist : Int := 2 ^ 62

/-- Insert into a list sorted by ascending `(distance, index)`. -/
def insertRanked (x : Int × Int) : List (Int × Int) → List (Int × Int)
  | [] => [x]
  | y :: ys =>
    if x.2 < y.2 ∨ (x.2 = y.2 ∧ x.1 ≤ y.1) then x :: y :: ys
    else y :: insertRanked x ys

/-- Sort by ascending `(distance, index)`.  Since the per-vector indices
are pairwise distinct, this lexicographic order is total and strict, so
the result coincides with FAISS's distance order with ties broken by
insertion order. -/
def sortRanked : List (Int × Int) → List (Int × Int)
  | [] => []
  | x :: xs => insertRanked x (sortRanked xs)

/-- `faiss.IndexFlatL2.search` for a single query: the `k` nearest
stored vectors as `(index, squared-distance)` rows, ascending distance,
ties by insertion order; when `k` exceeds the number of stored vectors
the remaining rows are padding with index `-1`. -/
def faissSearch (index : List Int) (q : Int) (k : Nat) : List (Int × Int) :=
  let scored := index.enum.map (fun p => ((p.1 : Int), (q - p.2) * (q - p.2)))
  (sortRanked scored).take k ++ List.replicate (k - index.length) (-1, faissPadDist)

/-- The candidate walk of `VectorStore.search` (the `for` loop over
`zip(indices[0], distances[0])`): skip candidates with `idx >= len(metadata)`
(note Python lets every negative `idx` through this guard), accept
empty-`raw` candidates unconditionally, skip candidates whose stripped
`raw` has similarity ratio `> 0.6` against any accepted fingerprint,
otherwise accept and record the stripped `raw`; stop as soon as `top_k`
results are collected. -/
def dedupLoop (metadata : List Item) (topk : Nat) :
    List (Int × Int) → List (Item × Int) → List String → List (Item × Int)
  | [], results, _ => results
  | (idx, dist) :: rest, results, accepted =>
    if idx < (metadata.length : Int) then
      let item := pyListGet metadata idx
      let rawText := pyStrip (rawKey item)
      if rawText = "" then
        let results' := results ++ [(item, dist)]
        if topk ≤ results'.length then results'
        else dedupLoop metadata topk rest results' accepted
      else if accepted.any (fun er => SeqMatcher.ratioGtPoint6 rawText er) then
        dedupLoop metadata topk rest results accepted
      else
        let results' := results ++ [(item, dist)]
        if topk ≤ results'.length then results'
        else dedupLoop metadata topk rest results' (accepted ++ [rawText])
    else
      dedupLoop metadata topk rest results accepted

/-- `VectorStore.search`: raise if `self.index is None`, embed the
query, fetch `candidate_k = top_k * 3` candidates from the index, then
run the dedup walk. -/
def VectorStore.search (emb : EmbFn) (vs : VectorStore) (query : String) (top_k : Nat) :
    Except VSErr (List (Item × Int)) :=
  match vs.index with
  | none => .error .notLoaded
  | some idxVecs =>
    match emb query with
    | .error _ => .error .embedFail
    | .ok qv =>
      let candidate_k := top_k * 3
      .ok (dedupLoop vs.metadata top_k (faissSearch idxVecs qv candidate_k) [] [])

/-- One line of the persisted metadata file (`metadata_path`): blank
lines are skipped by the readers, a corrupt line makes `json.loads`
raise, a good line parses to a record (JSON round-trip assumed). -/
inductive MetaLine where
  | blank
  | corrupt
  | good (item : Item)
deriving Repr, DecidableEq

/-- The persisted index artifact (`index_path`): either corrupt
(`faiss.read_index` raises) or the stored vector list. -/
inductive IndexFile where
  | corrupt
  | good (vecs : List Int)
deriving Repr, DecidableEq

/-- The file-system state at the two configured paths; `none` = absent. -/
structure FS where
  indexFile : Option IndexFile
  metaFile : Option (List MetaLine)
deriving Repr, DecidableEq

/-- `VectorStore.exists`: both artifacts are present on disk. -/
def fsExists (fs : FS) : Bool := fs.indexFile.isSome && fs.metaFile.isSome

/-- Reading the metadata file line by line (the loop in `build_index`'s
incremental branch and in `load_index`): skip blank lines, `json.loads`
each remaining line, raising on a corrupt one. -/
def readMetaLines : List MetaLine → Except VSErr (List Item)
  | [] => .ok []
  | .blank :: rest => readMetaLines rest
  | .corrupt :: _ => .error .corruptFile
  | .good item :: rest =>
    match readMetaLines rest with
    | .error e => .error e
    | .ok items => .ok (item :: items)

/-- `faiss.read_index`: raises if the file is absent or corrupt. -/
def readIndexFile : Option IndexFile → Except VSErr (List Int)
  | some (.good vecs) => .ok vecs
  | some .corrupt => .error .corruptFile
  | none => .error .fileNotFound

/-- One batched `encoder.encode(texts)` call: every text embedded, or
the provider raises. -/
def embedAll (emb : EmbFn) : List String → Except VSErr (List Int)
  | [] => .ok []
  | t :: ts =>
    match emb t with
    | .error _ => .error .embedFail
    | .ok v =>
      match embedAll emb ts with
      | .error e => .error e
      | .ok vs => .ok (v :: vs)

/-- The incremental diff of `build_index`: keep the corpus records whose
`item.get('raw', '')` is not in the set of existing `raw` keys
(exact string equality). -/
def newItemsOf (existing corpus : List Item) : List Item :=
  corpus.filter (fun it => !((existing.map rawKey).contains (rawKey it)))

/-- Outcome of the `try:` block of `build_index`'s incremental branch. -/
inductive IncOutcome where
  /-- `new_items` was empty: `build_index` returns immediately. -/
  | noNew
  /-- the increment succeeded: the extended index and metadata list. -/
  | updated (vecs : List Int) (metadataList : List Item)
  /-- some step raised; the `except` handler clears the `incremental`
  flag so the code falls through to a full rebuild. -/
  | failed
deriving Repr, DecidableEq

/-- The `try:` block of `build_index`'s incremental branch: read the
existing metadata (a corrupt line raises), diff the corpus by `raw`,
return early when nothing is new, otherwise load the existing index
(may raise), embed the new items' search texts (may raise), add the new
vectors and append the new records. -/
def tryIncremental (emb : EmbFn) (fs : FS) (allItems : List Item) : IncOutcome :=
  match fs.metaFile with
  | none => .failed
  | some lines =>
    match readMetaLines lines with
    | .error _ => .failed
    | .ok existingMetadata =>
      if (newItemsOf existingMetadata allItems).isEmpty then .noNew
      else
        match readIndexFile fs.indexFile with
        | .error _ => .failed
        | .ok oldVecs =>
          match embedAll emb ((newItemsOf existingMetadata allItems).map VectorStore.buildSearchText) with
          | .error _ => .failed
          | .ok newVecs =>
            .updated (oldVecs ++ newVecs) (existingMetadata ++ newItemsOf existingMetadata allItems)

/-- The persistence tail of `build_index`: `faiss.write_index`, set
`self.metadata`, write the metadata file one JSON line per record. -/
def persistState (vecs : List Int) (metadataList : List Item) : VectorStore × FS :=
  ({ index := some vecs, metadata := metadataList },
   { indexFile := some (.good vecs), metaFile := some (metadataList.map MetaLine.good) })

/-- The full-rebuild branch of `build_index` followed by persistence:
embed every corpus record's search text (a provider failure here
propagates to the caller), build a fresh flat index from the vectors. -/
def fullRebuild (emb : EmbFn) (allItems : List Item) : Except VSErr (VectorStore × FS) :=
  match embedAll emb (allItems.map VectorStore.buildSearchText) with
  | .error e => .error e
  | .ok vecs => .ok (persistState vecs allItems)

/-- `VectorStore.build_index` on an already-parsed corpus: when
incremental mode is requested and both artifacts exist, run the guarded
incremental branch; on `new_items == []` return with nothing written
and the instance untouched; on success persist the extended state; on
any exception inside the branch fall back to a full rebuild.  Otherwise
(or after the fallback) rebuild from the whole corpus and persist. -/
def buildIndex (emb : EmbFn) (vs : VectorStore) (fs : FS) (allItems : List Item)
    (incremental : Bool) : Except VSErr (VectorStore × FS) :=
  if incremental && fsExists fs then
    match tryIncremental emb fs allItems with
    | .noNew => .ok (vs, fs)
    | .updated vecs metadataList => .ok (persistState vecs metadataList)
    | .failed => fullRebuild emb allItems
  else
    fullRebuild emb allItems

/-- `VectorStore.load_index`: `FileNotFoundError` when either artifact
is absent, then `faiss.read_index` (raises on corruption) and the
line-by-line metadata read (raises on a corrupt line). -/
def loadIndex (vs : VectorStore) (fs : FS) : Except VSErr VectorStore :=
  match fs.indexFile with
  | none => .error .fileNotFound
  | some idxF =>
    match fs.metaFile with
    | none => .error .fileNotFound
    | some lines =>
      match readIndexFile (some idxF) with
      | .error e => .error e
      | .ok vecs =>
        match readMetaLines lines with
        | .error e => .error e
        | .ok items => .ok { vs with index := some vecs, metadata := items }

/-- Invariant I1 between a vector list and a record list: pointwise,
each vector is the (successful) embedding of the record's search text;
`List.Forall₂` also forces equal lengths. -/
def Aligned (emb : EmbFn) (vecs : List Int) (items : List Item) : Prop :=
  List.Forall₂ (fun v it => emb (VectorStore.buildSearchText it) = .ok v) vecs items

/-- Invariant I1 for the persisted artifacts: both files are readable
and aligned. -/
def AlignedFS (emb : EmbFn) (fs : FS) : Prop :=
  ∃ vecs items, fs.indexFile = some (.good vecs) ∧
    fs.metaFile = some (items.map MetaLine.good) ∧ Aligned emb vecs items

/-- A concrete deterministic embedding stub (used by the concrete
evaluations below, in the role of the spec's "deterministic embedding
stub in tests"). -/
def embLen : EmbFn := fun s => .ok (s.length : Int)

/-- Two search results are distinct under the code's dedup criterion:
whenever both have a non-empty whitespace-stripped `raw`, the similarity
ratio (the code's sequence-matcher metric, autojunk included) of the
later result's stripped `raw` against the earlier one's (the order in
which `search` compares them) is at most 0.6. -/
def DistinctBy06 (x y : Item × Int) : Prop :=
  pyStrip (rawKey y.1) ≠ "" → pyStrip (rawKey x.1) ≠ "" →
    ¬ ((0.6 : ℚ) < SeqMatcher.ratioQ (pyStrip (rawKey y.1)) (pyStrip (rawKey x.1)))

/-- The store exercising the `candidate_k > ntotal` boundary: a single
indexed record whose `raw` is the empty string. -/
def bugItem : Item := { raw := some "" }

/-- One vector in the index, one metadata record. -/
def bugStore : VectorStore := { index := some [5], metadata := [bugItem] }

/-- First record of the C2 counterexample: `raw` is the single space. -/
def cexA : Item := { subject := some "A", raw := some " " }

/-- Second record of the C2 counterexample. -/
def cexB : Item := { subject := some "B", raw := some " " }

/-- Two records, both with whitespace-only `raw`. -/
def cexStore : VectorStore := { index := some [0, 1], metadata := [cexA, cexB] }

/-- Store for the C2 witness: a single record with a real `raw`. -/
def w2Store : VectorStore := { index := some [0], metadata := [{ raw := some "alpha" }] }

/-- A one-record corpus for the C3 witness. -/
def c3Item : Item := { raw := some "hi" }

/-- Existing record for the C4 witness. -/
def c4X : Item := { raw := some "ax" }

/-- New record for the C4 witness. -/
def c4Y : Item := { raw := some "beta" }

/-- Existing record without `raw` for the C10 witness. -/
def c10e : Item := { subject := some "existing no raw" }

/-- Corpus record without `raw` for the C10 witness. -/
def c10n : Item := { subject := some "new no raw" }

/-- An embedding provider that always raises, for the C5 witness: the
second run succeeds without embedding anything. -/
def embErr : EmbFn := fun _ => .error ()

/-- The record of the C5 witness corpus. -/
def c5It : Item := { raw := some "idem" }

/-- The record of the C9 witness. -/
def c9It : Item := { raw := some "x" }

/-- The record of the C6 witness corpus. -/
def c6It : Item := { raw := some "c six" }

theorem readMetaLines_map_good (items : List Item) :
    readMetaLines (items.map MetaLine.good) = .ok items := by
  induction items with
  | nil => rfl
  | cons it rest ih => simp [readMetaLines, ih]

theorem embedAll_ok_forall₂ (emb : EmbFn) :
    ∀ (ts : List String) (vs : List Int), embedAll emb ts = .ok vs →
      List.Forall₂ (fun v t => emb t = .ok v) vs ts := by
  intro ts
  induction ts with
  | nil => intro vs h; simp [embedAll] at h; simp [← h]
  | cons t rest ih =>
    intro vs h
    simp only [embedAll] at h
    cases het : emb t with
    | error e => rw [het] at h; exact absurd h (by simp)
    | ok v =>
      rw [het] at h
      cases hrest : embedAll emb rest with
      | error e => rw [hrest] at h; exact absurd h (by simp)
      | ok vrest =>
        rw [hrest] at h
        cases h
        exact List.Forall₂.cons het (ih vrest hrest)

theorem embedAll_ok_mem (emb : EmbFn) :
    ∀ (ts : List String) (vs : List Int), embedAll emb ts = .ok vs →
      ∀ t ∈ ts, ∃ v, emb t = .ok v := by
  intro ts
  induction ts with
  | nil => intro vs _ t ht; exact absurd ht (List.not_mem_nil t)
  | cons t rest ih =>
    intro vs h t' ht'
    simp only [embedAll] at h
    cases het : emb t with
    | error e => rw [het] at h; exact absurd h (by simp)
    | ok v =>
      rw [het] at h
      cases hrest : embedAll emb rest with
      | error e => rw [hrest] at h; exact absurd h (by simp)
      | ok vrest =>
        rcases List.mem_cons.mp ht' with rfl | hmem
        · exact ⟨v, het⟩
        · exact ih vrest hrest t' hmem

theorem embedAll_ok_of_forall (emb : EmbFn) :
    ∀ ts : List String, (∀ t ∈ ts, ∃ v, emb t = .ok v) →
      ∃ vs, embedAll emb ts = .ok vs := by
  intro ts
  induction ts with
  | nil => intro _; exact ⟨[], rfl⟩
  | cons t rest ih =>
    intro h
    obtain ⟨v, hv⟩ := h t (List.mem_cons_self t rest)
    obtain ⟨vs, hvs⟩ := ih (fun t' ht' => h t' (List.mem_cons_of_mem t ht'))
    exact ⟨v :: vs, by simp [embedAll, hv, hvs]⟩

theorem aligned_append {emb : EmbFn} {v₁ v₂ : List Int} {i₁ i₂ : List Item}
    (h₁ : Aligned emb v₁ i₁) (h₂ : Aligned emb v₂ i₂) :
    Aligned emb (v₁ ++ v₂) (i₁ ++ i₂) := by
  induction h₁ with
  | nil => exact h₂
  | cons hv _ ih => exact List.Forall₂.cons hv ih

theorem aligned_of_embedAll {emb : EmbFn} {items : List Item} {vecs : List Int}
    (h : embedAll emb (items.map VectorStore.buildSearchText) = .ok vecs) :
    Aligned emb vecs items := by
  have h2 := embedAll_ok_forall₂ emb _ _ h
  exact List.forall₂_map_right_iff.mp h2


theorem ratioGtPoint6_iff (s t : String) :
    SeqMatcher.ratioGtPoint6 s t = true ↔ (0.6 : ℚ) < SeqMatcher.ratioQ s t := by
  unfold SeqMatcher.ratioGtPoint6 SeqMatcher.ratioQ
  by_cases h0 : s.data.length + t.data.length = 0
  · simp only [h0, if_pos rfl]
    norm_num
  · have hTpos : (0 : ℚ) < ((s.data.length + t.data.length : Nat) : ℚ) := by
      exact_mod_cast Nat.pos_of_ne_zero h0
    simp only [h0, if_false, decide_eq_true_iff]
    rw [lt_div_iff₀ hTpos, show (0.6 : ℚ) = 3 / 5 by norm_num,
      div_mul_eq_mul_div, div_lt_iff₀ (by norm_num : (0:ℚ) < 5)]
    constructor
    · intro h
      have hq : ((3 * (s.data.length + t.data.length) : Nat) : ℚ) <
          ((10 * SeqMatcher.totalMatched s.data t.data : Nat) : ℚ) := by
        exact_mod_cast h
      push_cast at hq ⊢
      linarith
    · intro h
      have hq : ((3 * (s.data.length + t.data.length) : Nat) : ℚ) <
          ((10 * SeqMatcher.totalMatched s.data t.data : Nat) : ℚ) := by
        push_cast at h ⊢
        linarith
      exact_mod_cast hq

theorem dedupLoop_pairwise (metadata : List Item) (topk : Nat)
    (cands : List (Int × Int)) :
    ∀ (results : List (Item × Int)) (accepted : List String),
      results.Pairwise DistinctBy06 →
      (∀ r ∈ results, pyStrip (rawKey r.1) ≠ "" → pyStrip (rawKey r.1) ∈ accepted) →
      (dedupLoop metadata topk cands results accepted).Pairwise DistinctBy06 := by
  induction cands with
  | nil => intro results accepted hp _; simpa [dedupLoop] using hp
  | cons cand rest ih =>
    intro results accepted hp hacc
    obtain ⟨idx, dist⟩ := cand
    simp only [dedupLoop]
    set item := pyListGet metadata idx with hitem
    set rawText := pyStrip (rawKey item) with hraw
    have hp_empty : rawText = "" →
        (results ++ [(item, dist)]).Pairwise DistinctBy06 := by
      intro hempty
      rw [List.pairwise_append]
      refine ⟨hp, List.pairwise_singleton _ _, ?_⟩
      intro a _ b hb
      rw [List.mem_singleton] at hb
      subst hb
      intro hbne
      exact absurd hempty hbne
    have hacc_empty : ∀ r ∈ results ++ [(item, dist)],
        rawText = "" → pyStrip (rawKey r.1) ≠ "" → pyStrip (rawKey r.1) ∈ accepted := by
      intro r hr hempty
      rcases List.mem_append.mp hr with hr | hr
      · exact hacc r hr
      · rw [List.mem_singleton] at hr
        subst hr
        intro hne
        exact absurd hempty hne
    have hp_acc : ¬ ((accepted.any fun er => SeqMatcher.ratioGtPoint6 rawText er) = true) →
        (results ++ [(item, dist)]).Pairwise DistinctBy06 := by
      intro hany
      have hnone : ∀ s ∈ accepted, ¬ (SeqMatcher.ratioGtPoint6 rawText s = true) :=
        fun s hs hgt => hany (List.any_eq_true.mpr ⟨s, hs, hgt⟩)
      rw [List.pairwise_append]
      refine ⟨hp, List.pairwise_singleton _ _, ?_⟩
      intro a ha b hb
      rw [List.mem_singleton] at hb
      subst hb
      intro _ hane hgt
      exact hnone _ (hacc a ha hane) ((ratioGtPoint6_iff _ _).mpr hgt)
    have hacc_acc : ∀ r ∈ results ++ [(item, dist)],
        pyStrip (rawKey r.1) ≠ "" → pyStrip (rawKey r.1) ∈ accepted ++ [rawText] := by
      intro r hr hne
      rcases List.mem_append.mp hr with hr | hr
      · exact List.mem_append_left _ (hacc r hr hne)
      · rw [List.mem_singleton] at hr
        subst hr
        exact List.mem_append_right _ (by simp)
    split
    · split
      · split
        · exact hp_empty (by assumption)
        · exact ih _ _ (hp_empty (by assumption))
            (fun r hr => hacc_empty r hr (by assumption))
      · split
        · exact ih _ _ hp hacc
        · split
          · exact hp_acc (by assumption)
          · exact ih _ _ (hp_acc (by assumption)) hacc_acc
    · exact ih _ _ hp hacc

/-- Claim C1 (code bug, evaluation at the failing input): with one
indexed record whose `raw` is empty and `top_k = 2`, `candidate_k = 6`
exceeds the single stored vector, and FAISS pads the remaining rows
with index `-1`.  The guard `idx < len(self.metadata)` lets `-1`
through, Python's negative indexing maps it to the last record, and the
empty `raw` bypasses dedup — so `search` returns the same record twice,
contradicting the claim that padding entries add no extra or repeated
records. -/
theorem claim_C1 :
    VectorStore.search embLen bugStore "q" 2 =
      .ok [(bugItem, 16), (bugItem, faissPadDist)] := by rfl

/-- Claim C2 (amended): for every store, query and count, the result
list of `search` never contains an earlier record `x` and a later
record `y` whose whitespace-stripped `raw` values are both non-empty
and whose similarity ratio — the sequence-matcher `2*M/T` metric as the
code computes it, autojunk heuristic included, taken on the stripped
values, later against earlier (the order the code compares) — exceeds
0.6. -/
theorem claim_C2 (emb : EmbFn) (vs : VectorStore) (query : String) (top_k : Nat)
    (res : List (Item × Int))
    (h : VectorStore.search emb vs query top_k = .ok res) :
    res.Pairwise DistinctBy06 := by
  unfold VectorStore.search at h
  cases hvi : vs.index with
  | none => rw [hvi] at h; exact absurd h (by simp)
  | some idxVecs =>
    rw [hvi] at h
    cases hq : emb query with
    | error e => rw [hq] at h; exact absurd h (by simp)
    | ok qv =>
      rw [hq] at h
      simp only [Except.ok.injEq] at h
      rw [← h]
      exact dedupLoop_pairwise vs.metadata top_k _ [] []
        List.Pairwise.nil (by intro r hr; exact absurd hr (List.not_mem_nil r))

/-- Claim C2 counterexample: both records of `cexStore` are returned by
one search, yet the similarity ratio of their `raw` values (`" "` vs
`" "`) is 1 > 0.6 — whitespace-only `raw` bypasses the dedup check, so
the claim as stated (over `raw` values) is false on the code. -/
theorem claim_C2_counterexample :
    VectorStore.search embLen cexStore "" 2 = .ok [(cexA, 0), (cexB, 1)] ∧
    (0.6 : ℚ) < SeqMatcher.ratioQ (cexA.raw.getD "") (cexB.raw.getD "") := by
  refine ⟨by rfl, ?_⟩
  show (0.6 : ℚ) < SeqMatcher.ratioQ " " " "
  rw [← ratioGtPoint6_iff]
  decide

/-- Witness for (amended) claim C2 at a concrete search. -/
theorem claim_C2_witness :
    ([({ raw := some "alpha" }, 0)] : List (Item × Int)).Pairwise DistinctBy06 :=
  claim_C2 embLen w2Store "" 1 _ rfl

/-- Claim C7: `_build_search_text` agrees with the spec's description —
the present fields concatenated in the fixed order subject, art_style,
visual_elements joined, mood, technical joined; if all of these fields
are empty or absent, the search text is the record's `raw` value. -/
theorem claim_C7 (item : Item) :
    VectorStore.buildSearchText item = specSearchText item := by
  have hsingle : ∀ x : String, " ".intercalate [x] = x := fun x => rfl
  unfold VectorStore.buildSearchText specSearchText presentFields
  split_ifs <;> simp_all

/-- Claim C8: calling `search` before the index is loaded or built
(`self.index is None`) raises the uninitialized-index `ValueError`,
whatever the query, the count, the metadata or the embedder. -/
theorem claim_C8 (emb : EmbFn) (vs : VectorStore) (query : String) (top_k : Nat)
    (h : vs.index = none) :
    VectorStore.search emb vs query top_k = .error .notLoaded := by
  unfold VectorStore.search
  rw [h]

/-- Witness for claim C8: a fresh store, never loaded. -/
theorem claim_C8_witness :
    VectorStore.search embLen { index := none, metadata := [] } "any query" 5 =
      .error .notLoaded :=
  claim_C8 embLen { index := none, metadata := [] } "any query" 5 rfl


theorem tryIncremental_noNew_of (emb : EmbFn) (fs : FS) (corpus : List Item)
    (lines : List MetaLine) (existing : List Item)
    (hm : fs.metaFile = some lines) (hr : readMetaLines lines = .ok existing)
    (hn : newItemsOf existing corpus = []) :
    tryIncremental emb fs corpus = .noNew := by
  unfold tryIncremental
  rw [hm]
  simp only [hr, hn]
  rfl

theorem tryIncremental_noNew_inv (emb : EmbFn) (fs : FS) (corpus : List Item)
    (h : tryIncremental emb fs corpus = .noNew) :
    ∃ lines existing, fs.metaFile = some lines ∧ readMetaLines lines = .ok existing ∧
      newItemsOf existing corpus = [] := by
  unfold tryIncremental at h
  split at h
  · exact IncOutcome.noConfusion h
  · rename_i lines hmf
    split at h
    · exact IncOutcome.noConfusion h
    · rename_i existing hr
      split at h
      · rename_i hne
        exact ⟨lines, existing, hmf, hr, List.isEmpty_iff.mp hne⟩
      · split at h
        · exact IncOutcome.noConfusion h
        · split at h
          · exact IncOutcome.noConfusion h
          · exact IncOutcome.noConfusion h

theorem tryIncremental_updated_inv (emb : EmbFn) (fs : FS) (corpus : List Item)
    (vecs : List Int) (mlist : List Item)
    (h : tryIncremental emb fs corpus = .updated vecs mlist) :
    ∃ lines existing oldVecs newVecs,
      fs.metaFile = some lines ∧ readMetaLines lines = .ok existing ∧
      readIndexFile fs.indexFile = .ok oldVecs ∧
      embedAll emb ((newItemsOf existing corpus).map VectorStore.buildSearchText) = .ok newVecs ∧
      newItemsOf existing corpus ≠ [] ∧
      vecs = oldVecs ++ newVecs ∧ mlist = existing ++ newItemsOf existing corpus := by
  unfold tryIncremental at h
  split at h
  · exact IncOutcome.noConfusion h
  · rename_i lines hmf
    split at h
    · exact IncOutcome.noConfusion h
    · rename_i existing hr
      split at h
      · exact IncOutcome.noConfusion h
      · rename_i hne
        split at h
        · exact IncOutcome.noConfusion h
        · rename_i oldVecs hri
          split at h
          · exact IncOutcome.noConfusion h
          · rename_i newVecs hea
            injection h with h1 h2
            refine ⟨lines, existing, oldVecs, newVecs, hmf, hr, hri, hea, ?_, h1.symm, h2.symm⟩
            intro he
            rw [he] at hne
            exact hne rfl

theorem buildIndex_ok_cases (emb : EmbFn) (vs : VectorStore) (fs : FS)
    (corpus : List Item) (inc : Bool) (vs' : VectorStore) (fs' : FS)
    (hb : buildIndex emb vs fs corpus inc = .ok (vs', fs')) :
    ((inc && fsExists fs) = true ∧ tryIncremental emb fs corpus = .noNew ∧
      vs' = vs ∧ fs' = fs) ∨
    (∃ vecs mlist, (inc && fsExists fs) = true ∧
      tryIncremental emb fs corpus = .updated vecs mlist ∧
      (vs', fs') = persistState vecs mlist) ∨
    (((inc && fsExists fs) = false ∨ tryIncremental emb fs corpus = .failed) ∧
      ∃ vecs, embedAll emb (corpus.map VectorStore.buildSearchText) = .ok vecs ∧
      (vs', fs') = persistState vecs corpus) := by
  unfold buildIndex at hb
  by_cases hcond : (inc && fsExists fs) = true
  · rw [if_pos hcond] at hb
    cases hti : tryIncremental emb fs corpus with
    | noNew =>
      rw [hti] at hb
      injection hb with h1
      injection h1 with h2 h3
      exact Or.inl ⟨hcond, rfl, h2.symm, h3.symm⟩
    | updated vecs mlist =>
      rw [hti] at hb
      injection hb with h1
      exact Or.inr (Or.inl ⟨vecs, mlist, hcond, rfl, h1.symm⟩)
    | failed =>
      rw [hti] at hb
      unfold fullRebuild at hb
      cases hea : embedAll emb (corpus.map VectorStore.buildSearchText) with
      | error e => rw [hea] at hb; exact Except.noConfusion hb
      | ok vecs =>
        rw [hea] at hb
        injection hb with h1
        exact Or.inr (Or.inr ⟨Or.inr rfl, vecs, rfl, h1.symm⟩)
  · rw [if_neg hcond] at hb
    unfold fullRebuild at hb
    cases hea : embedAll emb (corpus.map VectorStore.buildSearchText) with
    | error e => rw [hea] at hb; exact Except.noConfusion hb
    | ok vecs =>
      rw [hea] at hb
      injection hb with h1
      exact Or.inr (Or.inr ⟨Or.inl (by simpa using hcond), vecs, rfl, h1.symm⟩)

theorem tryIncremental_failed_inv (emb : EmbFn) (fs : FS) (corpus : List Item)
    (h : tryIncremental emb fs corpus = .failed) :
    fs.metaFile = none ∨
    (∃ lines e, fs.metaFile = some lines ∧ readMetaLines lines = .error e) ∨
    (∃ lines existing e, fs.metaFile = some lines ∧ readMetaLines lines = .ok existing ∧
      readIndexFile fs.indexFile = .error e) ∨
    (∃ lines existing oldVecs e, fs.metaFile = some lines ∧
      readMetaLines lines = .ok existing ∧ readIndexFile fs.indexFile = .ok oldVecs ∧
      embedAll emb ((newItemsOf existing corpus).map VectorStore.buildSearchText) = .error e) := by
  unfold tryIncremental at h
  split at h
  · rename_i hmf; exact Or.inl hmf
  · rename_i lines hmf
    split at h
    · rename_i e hr; exact Or.inr (Or.inl ⟨lines, e, hmf, hr⟩)
    · rename_i existing hr
      split at h
      · exact IncOutcome.noConfusion h
      · split at h
        · rename_i e hri; exact Or.inr (Or.inr (Or.inl ⟨lines, existing, e, hmf, hr, hri⟩))
        · rename_i oldVecs hri
          split at h
          · rename_i e hea
            exact Or.inr (Or.inr (Or.inr ⟨lines, existing, oldVecs, e, hmf, hr, hri, hea⟩))
          · exact IncOutcome.noConfusion h

theorem embedAll_newItems_ok (emb : EmbFn) (existing corpus : List Item) (vecs : List Int)
    (h : embedAll emb (corpus.map VectorStore.buildSearchText) = .ok vecs) :
    ∃ newVecs,
      embedAll emb ((newItemsOf existing corpus).map VectorStore.buildSearchText) = .ok newVecs := by
  apply embedAll_ok_of_forall
  intro t ht
  rcases List.mem_map.mp ht with ⟨it, hit, rfl⟩
  exact embedAll_ok_mem emb _ _ h _
    (List.mem_map_of_mem _ (List.mem_of_mem_filter hit))

/-- The shape of a successful `build_index` call in incremental mode
against well-formed persisted artifacts: the resulting artifacts hold
the existing records followed by exactly the corpus records whose `raw`
key was not yet present, and the existing vectors followed by the new
items' embeddings. -/
theorem buildIndex_incr_shape (emb : EmbFn) (vs : VectorStore) (fs : FS)
    (corpus existing : List Item) (oldVecs : List Int) (vs' : VectorStore) (fs' : FS)
    (hm : fs.metaFile = some (existing.map MetaLine.good))
    (hi : fs.indexFile = some (.good oldVecs))
    (hb : buildIndex emb vs fs corpus true = .ok (vs', fs')) :
    ∃ newVecs,
      embedAll emb ((newItemsOf existing corpus).map VectorStore.buildSearchText) = .ok newVecs ∧
      fs'.metaFile = some ((existing ++ newItemsOf existing corpus).map MetaLine.good) ∧
      fs'.indexFile = some (.good (oldVecs ++ newVecs)) := by
  rcases buildIndex_ok_cases emb vs fs corpus true vs' fs' hb with
    ⟨_, hti, _, rfl⟩ | ⟨vecs, mlist, _, hti, heq⟩ | ⟨htag, vecs, hea, heq⟩
  · obtain ⟨lines, existing2, hm2, hr2, hn2⟩ := tryIncremental_noNew_inv _ _ _ hti
    rw [hm] at hm2
    injection hm2 with hlines
    rw [← hlines, readMetaLines_map_good] at hr2
    injection hr2 with hex
    subst hex
    refine ⟨[], ?_, ?_, ?_⟩
    · rw [hn2]; rfl
    · rw [hn2, List.append_nil]; exact hm
    · rw [List.append_nil]; exact hi
  · obtain ⟨lines, existing2, oldVecs2, newVecs, hm2, hr2, hri2, hea2, _, hv, hml⟩ :=
      tryIncremental_updated_inv _ _ _ _ _ hti
    rw [hm] at hm2
    injection hm2 with hlines
    rw [← hlines, readMetaLines_map_good] at hr2
    injection hr2 with hex
    subst hex
    rw [hi] at hri2
    simp only [readIndexFile] at hri2
    injection hri2 with hov
    subst hov
    have hfs : fs' = (persistState vecs mlist).2 := congrArg Prod.snd heq
    refine ⟨newVecs, hea2, ?_, ?_⟩
    · rw [hfs]
      simp [persistState, hml]
    · rw [hfs]
      simp [persistState, hv]
  · exfalso
    rcases htag with hfalse | hfail
    · rw [Bool.and_eq_false_iff] at hfalse
      rcases hfalse with h1 | h2
      · exact Bool.noConfusion h1
      · rw [fsExists, hm, hi] at h2
        simp at h2
    · rcases tryIncremental_failed_inv _ _ _ hfail with
        hnone | ⟨lines, e, hm2, hr2⟩ | ⟨lines, existing2, e, hm2, hr2, hri2⟩ |
        ⟨lines, existing2, oldVecs2, e, hm2, hr2, hri2, hea2⟩
      · rw [hm] at hnone; exact Option.noConfusion hnone
      · rw [hm] at hm2
        injection hm2 with hlines
        rw [← hlines, readMetaLines_map_good] at hr2
        exact Except.noConfusion hr2
      · rw [hi] at hri2
        simp only [readIndexFile] at hri2
        exact Except.noConfusion hri2
      · rw [hm] at hm2
        injection hm2 with hlines
        rw [← hlines, readMetaLines_map_good] at hr2
        injection hr2 with hex
        subst hex
        obtain ⟨newVecs, hok⟩ := embedAll_newItems_ok emb existing corpus vecs hea
        rw [hok] at hea2
        exact Except.noConfusion hea2

/-- Claim C3: whenever the guarded incremental branch of `build_index`
raises (`tryIncremental` ends in `.failed`, which happens exactly on
corrupt existing metadata, index load failure, or embedding failure —
see `tryIncremental_failed_inv`) and the full rebuild of the whole
corpus succeeds, `build_index` returns the full-rebuild state built
from the entire corpus and does not re-throw the original error. -/
theorem claim_C3 (emb : EmbFn) (vs : VectorStore) (fs : FS) (corpus : List Item)
    (vecs : List Int)
    (hex : fsExists fs = true)
    (hfail : tryIncremental emb fs corpus = .failed)
    (hrebuild : embedAll emb (corpus.map VectorStore.buildSearchText) = .ok vecs) :
    buildIndex emb vs fs corpus true = .ok (persistState vecs corpus) := by
  have hcond : (true && fsExists fs) = true := by simp [hex]
  unfold buildIndex
  rw [if_pos hcond, hfail]
  show fullRebuild emb corpus = .ok (persistState vecs corpus)
  unfold fullRebuild
  rw [hrebuild]

/-- Witness for claim C3: the persisted metadata file is corrupt, the
incremental branch fails, and the build still returns the full-rebuild
state. -/
theorem claim_C3_witness :
    buildIndex embLen { index := none, metadata := [] }
      { indexFile := some (.good [7]), metaFile := some [.corrupt] } [c3Item] true =
      .ok (persistState [2] [c3Item]) :=
  claim_C3 embLen { index := none, metadata := [] }
    { indexFile := some (.good [7]), metaFile := some [.corrupt] } [c3Item] [2]
    rfl rfl rfl

/-- Claim C4: an incremental `build_index` over persisted artifacts
holding `existing` (N records) appends exactly the corpus records whose
`raw` key was absent (M records, in corpus order) after the N existing
records, which stay unchanged and in order; the persisted index gains
their embeddings in the same positions, and the new size is N + M. -/
theorem claim_C4 (emb : EmbFn) (vs : VectorStore) (fs : FS)
    (corpus existing : List Item) (oldVecs : List Int) (vs' : VectorStore) (fs' : FS)
    (hm : fs.metaFile = some (existing.map MetaLine.good))
    (hi : fs.indexFile = some (.good oldVecs))
    (hb : buildIndex emb vs fs corpus true = .ok (vs', fs')) :
    ∃ newVecs,
      embedAll emb ((newItemsOf existing corpus).map VectorStore.buildSearchText) = .ok newVecs ∧
      fs'.metaFile = some ((existing ++ newItemsOf existing corpus).map MetaLine.good) ∧
      fs'.indexFile = some (.good (oldVecs ++ newVecs)) ∧
      (existing ++ newItemsOf existing corpus).length =
        existing.length + (newItemsOf existing corpus).length := by
  obtain ⟨newVecs, h1, h2, h3⟩ :=
    buildIndex_incr_shape emb vs fs corpus existing oldVecs vs' fs' hm hi hb
  exact ⟨newVecs, h1, h2, h3, List.length_append _ _⟩

/-- Witness for claim C4 on a concrete incremental run: one existing
record, a corpus repeating it plus one new record. -/
theorem claim_C4_witness :
    ∃ newVecs,
      embedAll embLen ((newItemsOf [c4X] [c4X, c4Y]).map VectorStore.buildSearchText) =
        .ok newVecs ∧
      (FS.mk (some (.good [9, 4])) (some ([c4X, c4Y].map MetaLine.good))).metaFile =
        some (([c4X] ++ newItemsOf [c4X] [c4X, c4Y]).map MetaLine.good) ∧
      (FS.mk (some (.good [9, 4])) (some ([c4X, c4Y].map MetaLine.good))).indexFile =
        some (.good ([9] ++ newVecs)) ∧
      ([c4X] ++ newItemsOf [c4X] [c4X, c4Y]).length =
        [c4X].length + (newItemsOf [c4X] [c4X, c4Y]).length :=
  claim_C4 embLen { index := none, metadata := [] }
    { indexFile := some (.good [9]), metaFile := some [MetaLine.good c4X] }
    [c4X, c4Y] [c4X] [9]
    { index := some [9, 4], metadata := [c4X, c4Y] }
    (FS.mk (some (.good [9, 4])) (some ([c4X, c4Y].map MetaLine.good)))
    rfl rfl rfl

/-- Claim C10: in the incremental diff a record without `raw` is keyed
as the empty string, so once any existing record's `raw` key is empty,
no corpus record whose `raw` key is empty is ever appended (the
appended records all have non-empty `raw` keys), whatever its other
fields. -/
theorem claim_C10 (emb : EmbFn) (vs : VectorStore) (fs : FS)
    (corpus existing : List Item) (oldVecs : List Int) (vs' : VectorStore) (fs' : FS)
    (hm : fs.metaFile = some (existing.map MetaLine.good))
    (hi : fs.indexFile = some (.good oldVecs))
    (hhole : ∃ e ∈ existing, rawKey e = "")
    (hb : buildIndex emb vs fs corpus true = .ok (vs', fs')) :
    fs'.metaFile = some ((existing ++ newItemsOf existing corpus).map MetaLine.good) ∧
    ∀ it ∈ newItemsOf existing corpus, rawKey it ≠ "" := by
  obtain ⟨newVecs, -, h2, -⟩ :=
    buildIndex_incr_shape emb vs fs corpus existing oldVecs vs' fs' hm hi hb
  refine ⟨h2, ?_⟩
  intro it hit hraw
  obtain ⟨e, he, hek⟩ := hhole
  unfold newItemsOf at hit
  have hpred := (List.mem_filter.mp hit).2
  have hcont : (existing.map rawKey).contains (rawKey it) = false := by
    simpa using hpred
  have hmem : rawKey it ∈ existing.map rawKey := by
    rw [hraw, ← hek]
    exact List.mem_map_of_mem rawKey he
  exact absurd hmem (by simpa using hcont)

/-- Witness for claim C10: the raw-less corpus record is classified as
already present, so nothing is appended. -/
theorem claim_C10_witness :
    (FS.mk (some (.good [3])) (some [MetaLine.good c10e])).metaFile =
      some (([c10e] ++ newItemsOf [c10e] [c10n]).map MetaLine.good) ∧
    ∀ it ∈ newItemsOf [c10e] [c10n], rawKey it ≠ "" :=
  claim_C10 embLen { index := none, metadata := [] }
    (FS.mk (some (.good [3])) (some [MetaLine.good c10e]))
    [c10n] [c10e] [3]
    { index := none, metadata := [] }
    (FS.mk (some (.good [3])) (some [MetaLine.good c10e]))
    rfl rfl ⟨c10e, List.mem_singleton.mpr rfl, rfl⟩ rfl

theorem newItemsOf_eq_nil_of_subset (existing corpus : List Item)
    (h : ∀ it ∈ corpus, rawKey it ∈ existing.map rawKey) :
    newItemsOf existing corpus = [] := by
  unfold newItemsOf
  rw [List.filter_eq_nil_iff]
  intro it hit hpred
  exact absurd (h it hit) (by simpa using hpred)

theorem rawKey_mem_append_newItemsOf (existing corpus : List Item) :
    ∀ it ∈ corpus, rawKey it ∈ (existing ++ newItemsOf existing corpus).map rawKey := by
  intro it hit
  rw [List.map_append, List.mem_append]
  by_cases hc : rawKey it ∈ existing.map rawKey
  · exact Or.inl hc
  · refine Or.inr (List.mem_map_of_mem rawKey ?_)
    unfold newItemsOf
    rw [List.mem_filter]
    exact ⟨hit, by simp [hc]⟩

/-- After any successful `build_index` over a corpus, the persisted
metadata covers every corpus `raw` key, so a following incremental diff
of the same corpus finds nothing new. -/
theorem buildIndex_ok_covers (emb : EmbFn) (vs : VectorStore) (fs : FS)
    (corpus : List Item) (inc : Bool) (vs1 : VectorStore) (fs1 : FS)
    (hb : buildIndex emb vs fs corpus inc = .ok (vs1, fs1)) :
    fsExists fs1 = true ∧
    ∃ lines existing, fs1.metaFile = some lines ∧ readMetaLines lines = .ok existing ∧
      newItemsOf existing corpus = [] := by
  rcases buildIndex_ok_cases emb vs fs corpus inc vs1 fs1 hb with
    ⟨hcond, hti, hvs, hfs⟩ | ⟨vecs, mlist, hcond, hti, heq⟩ | ⟨_, vecs, hea, heq⟩
  · subst hfs
    obtain ⟨lines, existing, hm2, hr2, hn2⟩ := tryIncremental_noNew_inv _ _ _ hti
    refine ⟨?_, lines, existing, hm2, hr2, hn2⟩
    rcases Bool.and_eq_true _ _ ▸ hcond with ⟨-, h2⟩
    exact h2
  · obtain ⟨lines, existing, oldVecs, newVecs, hm2, hr2, hri2, hea2, _, hv, hml⟩ :=
      tryIncremental_updated_inv _ _ _ _ _ hti
    have hfs1 : fs1 = (persistState vecs mlist).2 := congrArg Prod.snd heq
    refine ⟨by rw [hfs1]; rfl, mlist.map MetaLine.good, mlist, by rw [hfs1]; rfl,
      readMetaLines_map_good mlist, ?_⟩
    rw [hml]
    exact newItemsOf_eq_nil_of_subset _ _ (rawKey_mem_append_newItemsOf existing corpus)
  · have hfs1 : fs1 = (persistState vecs corpus).2 := congrArg Prod.snd heq
    refine ⟨by rw [hfs1]; rfl, corpus.map MetaLine.good, corpus, by rw [hfs1]; rfl,
      readMetaLines_map_good corpus, ?_⟩
    exact newItemsOf_eq_nil_of_subset _ _ (fun it hit => List.mem_map_of_mem rawKey hit)

/-- Claim C5: after any successful `build_index` run over a corpus, a
second incremental run with the unchanged corpus is a no-op: whatever
embedder it is given (nothing is embedded), it returns the in-memory
and persisted state unchanged and re-persists nothing. -/
theorem claim_C5 (emb emb' : EmbFn) (vs : VectorStore) (fs : FS) (corpus : List Item)
    (inc : Bool) (vs1 : VectorStore) (fs1 : FS)
    (hb : buildIndex emb vs fs corpus inc = .ok (vs1, fs1)) :
    buildIndex emb' vs1 fs1 corpus true = .ok (vs1, fs1) := by
  obtain ⟨hex, lines, existing, hm1, hr1, hn1⟩ :=
    buildIndex_ok_covers emb vs fs corpus inc vs1 fs1 hb
  have hti := tryIncremental_noNew_of emb' fs1 corpus lines existing hm1 hr1 hn1
  have hcond : (true && fsExists fs1) = true := by simp [hex]
  unfold buildIndex
  rw [if_pos hcond, hti]

/-- Witness for claim C5: a full build of one record, then a second
incremental run of the same corpus under an always-failing embedder,
returning the state unchanged. -/
theorem claim_C5_witness :
    buildIndex embErr { index := some [4], metadata := [c5It] }
      (FS.mk (some (.good [4])) (some [MetaLine.good c5It])) [c5It] true =
      .ok ({ index := some [4], metadata := [c5It] },
        FS.mk (some (.good [4])) (some [MetaLine.good c5It])) :=
  claim_C5 embLen embErr { index := none, metadata := [] } (FS.mk none none) [c5It] true
    { index := some [4], metadata := [c5It] }
    (FS.mk (some (.good [4])) (some [MetaLine.good c5It])) rfl

/-- Claim C9: when an incremental `build_index` on a fresh instance
(`self.index is None`, `self.metadata == []`) finds no new records, it
returns before loading anything: the call succeeds with the instance
and the files untouched, and a subsequent `search` on the instance
raises the uninitialized-index error (whatever embedder, query and
count), until `load_index` is called. -/
theorem claim_C9 (emb : EmbFn) (vs : VectorStore) (fs : FS) (corpus existing : List Item)
    (hvsi : vs.index = none) (_hvsm : vs.metadata = [])
    (hm : fs.metaFile = some (existing.map MetaLine.good))
    (hie : fs.indexFile.isSome = true)
    (hnone : newItemsOf existing corpus = []) :
    buildIndex emb vs fs corpus true = .ok (vs, fs) ∧
    ∀ (emb' : EmbFn) (query : String) (top_k : Nat),
      VectorStore.search emb' vs query top_k = .error .notLoaded := by
  constructor
  · have hex : fsExists fs = true := by simp [fsExists, hie, hm]
    have hti := tryIncremental_noNew_of emb fs corpus _ _ hm
      (readMetaLines_map_good existing) hnone
    have hcond : (true && fsExists fs) = true := by simp [hex]
    unfold buildIndex
    rw [if_pos hcond, hti]
  · intro emb' query top_k
    unfold VectorStore.search
    rw [hvsi]

/-- Witness for claim C9: an incremental run finding nothing new leaves
the fresh instance unloaded and searching on it errors. -/
theorem claim_C9_witness :
    buildIndex embLen { index := none, metadata := [] }
      (FS.mk (some (.good [1])) (some [MetaLine.good c9It])) [c9It] true =
      .ok ({ index := none, metadata := [] },
        FS.mk (some (.good [1])) (some [MetaLine.good c9It])) ∧
    VectorStore.search embLen { index := none, metadata := [] } "q" 3 =
      .error .notLoaded :=
  ⟨(claim_C9 embLen { index := none, metadata := [] }
      (FS.mk (some (.good [1])) (some [MetaLine.good c9It])) [c9It] [c9It]
      rfl rfl rfl rfl rfl).1,
   (claim_C9 embLen { index := none, metadata := [] }
      (FS.mk (some (.good [1])) (some [MetaLine.good c9It])) [c9It] [c9It]
      rfl rfl rfl rfl rfl).2 embLen "q" 3⟩

/-- Claim C6 (invariant I1): starting from persisted artifacts that are
aligned whenever they exist, any completed `build_index` (full or
incremental) leaves persisted artifacts in which the vector count
equals the record count and position `i` holds the embedding of record
`i`'s search text; and a `load_index` from those artifacts yields an
in-memory index and metadata list aligned the same way. -/
theorem claim_C6 (emb : EmbFn) (vs : VectorStore) (fs : FS) (corpus : List Item)
    (inc : Bool) (vs' : VectorStore) (fs' : FS)
    (hpre : fsExists fs = true → AlignedFS emb fs)
    (hb : buildIndex emb vs fs corpus inc = .ok (vs', fs')) :
    AlignedFS emb fs' ∧
    (∀ vs₀ vs₁, loadIndex vs₀ fs' = .ok vs₁ →
      ∃ vecs, vs₁.index = some vecs ∧ vecs.length = vs₁.metadata.length ∧
        ∀ (i : Nat) (hv : i < vecs.length) (hmi : i < vs₁.metadata.length),
          emb (VectorStore.buildSearchText (vs₁.metadata.get ⟨i, hmi⟩)) =
            .ok (vecs.get ⟨i, hv⟩)) := by
  have hAFS : AlignedFS emb fs' := by
    rcases buildIndex_ok_cases emb vs fs corpus inc vs' fs' hb with
      ⟨hcond, hti, hvs, hfs⟩ | ⟨vecs, mlist, hcond, hti, heq⟩ | ⟨_, vecs, hea, heq⟩
    · subst hfs
      rcases Bool.and_eq_true _ _ ▸ hcond with ⟨-, hex⟩
      exact hpre hex
    · obtain ⟨lines, existing, oldVecs, newVecs, hm2, hr2, hri2, hea2, _, hv, hml⟩ :=
        tryIncremental_updated_inv _ _ _ _ _ hti
      rcases Bool.and_eq_true _ _ ▸ hcond with ⟨-, hex⟩
      obtain ⟨vecs0, items0, hif0, hmf0, hal0⟩ := hpre hex
      rw [hmf0] at hm2
      injection hm2 with hlines
      rw [← hlines, readMetaLines_map_good] at hr2
      injection hr2 with hex2
      subst hex2
      rw [hif0] at hri2
      simp only [readIndexFile] at hri2
      injection hri2 with hov
      have hfs' : fs' = (persistState vecs mlist).2 := congrArg Prod.snd heq
      refine ⟨vecs, mlist, by rw [hfs']; rfl, by rw [hfs']; rfl, ?_⟩
      rw [hv, hml, ← hov]
      exact aligned_append hal0 (aligned_of_embedAll hea2)
    · have hfs' : fs' = (persistState vecs corpus).2 := congrArg Prod.snd heq
      exact ⟨vecs, corpus, by rw [hfs']; rfl, by rw [hfs']; rfl, aligned_of_embedAll hea⟩
  refine ⟨hAFS, ?_⟩
  intro vs₀ vs₁ hl
  obtain ⟨vecs, items, hif, hmf, hal⟩ := hAFS
  unfold loadIndex at hl
  rw [hif, hmf] at hl
  simp only [readIndexFile, readMetaLines_map_good] at hl
  injection hl with h1
  subst h1
  obtain ⟨hlen, hget⟩ := List.forall₂_iff_get.mp hal
  exact ⟨vecs, rfl, hlen, fun i hv hmi => hget i hv hmi⟩

/-- Witness for claim C6: a full build from empty state, then loading
the produced artifacts, at concrete inputs. -/
theorem claim_C6_witness :
    AlignedFS embLen (FS.mk (some (.good [5])) (some [MetaLine.good c6It])) ∧
    (∀ vs₀ vs₁,
      loadIndex vs₀ (FS.mk (some (.good [5])) (some [MetaLine.good c6It])) = .ok vs₁ →
      ∃ vecs, vs₁.index = some vecs ∧ vecs.length = vs₁.metadata.length ∧
        ∀ (i : Nat) (hv : i < vecs.length) (hmi : i < vs₁.metadata.length),
          embLen (VectorStore.buildSearchText (vs₁.metadata.get ⟨i, hmi⟩)) =
            .ok (vecs.get ⟨i, hv⟩)) :=
  claim_C6 embLen { index := none, metadata := [] } (FS.mk none none) [c6It] true
    { index := some [5], metadata := [c6It] }
    (FS.mk (some (.good [5])) (some [MetaLine.good c6It]))
    (fun h => by simp [fsExists] at h) rfl
